import Mathlib

/-!
# Verification of the Arduino-SDI-12 core (Parsons-team-ECCC fork)

A shallow embedding of the SDI-12 library core: the bit-level receive
decoder, the transmit framing, the shared circular receive buffer, the
CRC16 codec, the instance arbitration, the wake-sequence timing and the
stream-style numeric parsing.

The repository ships the fully documented header `src/SDI12.h` (constants,
state enumerations, member declarations and detailed behavioural contracts);
the implementation file `SDI12.cpp` is not part of the sources available
here.  Constants and documented formulas are taken directly from the header;
function bodies that live only in `SDI12.cpp` are modelled from the
specification's own description of the algorithms and are marked
`Modelled from the spec:` in their doc comments.

Conventions:
* Bytes and characters are `Nat` values (< 256, < 128 for ASCII payloads).
* Electrical line levels are `Bool` (`true` = HIGH = spacing = logical 0;
  `false` = LOW = marking = logical 1 — SDI-12 inverse logic).
* Times are `Nat` microseconds.
-/

/-! ## Constants from `src/SDI12.h` -/

/-- `SDI12_BUFFER_SIZE`: buffer size for incoming SDI-12 data (81 by default:
1 address + 75 values + 3 CRC + CR + LF), from `src/SDI12.h`. -/
def SDI12_BUFFER_SIZE : Nat := 81

/-- `SDI12_BIT_WIDTH_MICROS`: the size of a bit in microseconds
(1200 baud ~ 833 µs/bit), from `src/SDI12.h`. -/
def SDI12_BIT_WIDTH_MICROS : Nat := 833

/-- `SDI12_LINE_BREAK_MICROS`: the required "break" before sending commands,
>= 12 ms; the line level is HIGH for the break.  From `src/SDI12.h`. -/
def SDI12_LINE_BREAK_MICROS : Nat := 12100

/-- `SDI12_LINE_MARK_MICROS`: the required mark before a command or response,
>= 8.33 ms; the line level is LOW for the marking.  From `src/SDI12.h`. -/
def SDI12_LINE_MARK_MICROS : Nat := 8400

/-- `WAITING_FOR_START_BIT`: mask value of `rxState` while waiting for a
start bit (0xFF), from `src/SDI12.h`. -/
def WAITING_FOR_START_BIT : Nat := 0xFF

/-- `SDI12_CHECK_PARITY`: the header defines this macro (check the parity bit
on reception) unless `SDI12_IGNORE_PARITY` is set; `true` models the default
configuration. -/
def SDI12_CHECK_PARITY : Bool := true

/-- `NO_IGNORE_CHAR`: a char not found in a valid ASCII numeric field
(`'\x01'`), from `src/SDI12.h`. -/
def NO_IGNORE_CHAR : Nat := 0x01

/-- The line states of an SDI-12 object, from the `SDI12_STATES` enum in
`src/SDI12.h`. -/
inductive SDI12_STATES
  | SDI12_DISABLED
  | SDI12_ENABLED
  | SDI12_HOLDING
  | SDI12_TRANSMITTING
  | SDI12_LISTENING
deriving DecidableEq, Repr

/-- The lookahead options for `parseInt()`/`parseFloat()`, from the
`LookaheadMode` enum in `src/SDI12.h`. -/
inductive LookaheadMode
  | SKIP_ALL
  | SKIP_NONE
  | SKIP_WHITESPACE
deriving DecidableEq, Repr

/-! ## Parity -/

/-- Modelled from the spec: `parity_even_bit` (declared in `src/SDI12.h`,
defined in the missing `SDI12.cpp` for non-AVR cores) — the even-parity bit
for a 7-bit SDI-12 character: the XOR of its seven data bits, so that the
total number of 1 bits including the parity bit is even. -/
def parity_even_bit (v : Nat) : Bool :=
  (List.range 7).foldl (fun p i => xor p (v.testBit i)) false

/-! ## Transmit framing (`writeChar`) -/

/-- Modelled from the spec: `writeChar` (missing `SDI12.cpp`) emits one
10-bit frame — 1 start bit, 7 data bits least-significant-bit first,
1 computed even-parity bit, 1 stop bit — using inverse logic (electrical
HIGH = logical 0), each level held for one bit width (833 µs).  The result
is the list of the 10 electrical levels of the frame in order. -/
def writeChar (out : Nat) : List Bool :=
  true :: ((List.range 7).map (fun i => !(out.testBit i)) ++
    [!(parity_even_bit out), false])

/-- The electrical level sequence of a whole transmission: the frames of
each byte back to back (each level one bit width long). -/
def framesOf (bs : List Nat) : List Bool :=
  (bs.map writeChar).flatten

/-- Turn a level sequence (each level held one bit width, starting at time
`t`, with previous line level `l`) into the list of edge events
`(timestamp, new level)` a pin-change interrupt would see. -/
def lineEdges : Nat → Bool → List Bool → List (Nat × Bool)
  | _, _, [] => []
  | t, l, b :: rest =>
    if b = l then lineEdges (t + SDI12_BIT_WIDTH_MICROS) l rest
    else (t, b) :: lineEdges (t + SDI12_BIT_WIDTH_MICROS) b rest

/-! ## The receive decoder (`receiveISR`) -/

/-- The receive-decode scratch state of a bus instance plus the stream of
bytes it has delivered to the buffer, from `src/SDI12.h`
(`rxState`, `rxMask`, `rxValue`, `prevBitTCNT`, `_parityFailure`).
`delivered` stands for the sequence of `charToBuffer` calls the decoder has
made, in order; feeding them to the shared buffer is composed separately. -/
structure DecodeState where
  rxState : Nat
  rxMask : Nat
  rxValue : Nat
  prevBitTCNT : Nat
  _parityFailure : Bool
  delivered : List Nat
deriving DecidableEq, Repr

/-- `startChar`: a blank slate for a new incoming character (modelled from
the spec: start bit seen, mask reset to the least significant bit). -/
def startChar (s : DecodeState) : DecodeState :=
  { s with rxState := 0, rxMask := 0x01, rxValue := 0x00 }

/-- Modelled from the spec: consuming one elapsed bit period of logical
value `v` (missing `SDI12.cpp`, spec §BitDecoder):
* `rxState` 0..6 — shift one data bit into `rxValue` at the position given
  by `rxMask`, least-significant bit first, `rxMask` doubling each step;
* `rxState` 7 — the parity bit is captured; with parity checking enabled a
  mismatch against the computed even parity over the 7 data bits sets the
  sticky `_parityFailure` flag (the character is not discarded);
* `rxState` 8 — the stop bit: the assembled byte (parity bit masked off) is
  delivered to the buffer and `rxState` resets to the sentinel;
* sentinel — surplus idle periods are ignored. -/
def feedBit (s : DecodeState) (v : Bool) : DecodeState :=
  if s.rxState = WAITING_FOR_START_BIT then s
  else if s.rxState < 7 then
    { s with rxValue := if v then s.rxValue ||| s.rxMask else s.rxValue,
             rxMask := s.rxMask <<< 1,
             rxState := s.rxState + 1 }
  else if s.rxState = 7 then
    { s with rxValue := if v then s.rxValue ||| s.rxMask else s.rxValue,
             _parityFailure := s._parityFailure ||
               (SDI12_CHECK_PARITY && (v != parity_even_bit (s.rxValue &&& 0x7F))),
             rxMask := s.rxMask <<< 1,
             rxState := 8 }
  else
    { s with delivered := s.delivered ++ [s.rxValue &&& 0x7F],
             rxState := WAITING_FOR_START_BIT }

/-- Modelled from the spec: `receiveISR` (missing `SDI12.cpp`) — invoked
once per electrical edge with the edge timestamp and the post-edge pin
level.  Waiting for a start bit, an edge to HIGH (spacing) begins a new
character.  Mid-character, the elapsed time since the previous edge divided
by the bit width gives the number of elapsed bit periods; all but the last
ran at the pre-edge level (logical value = `pinLevel`, inverse logic) and
the period starting at this edge has the post-edge level (logical
`!pinLevel`).  The fill is capped at the bits remaining in the frame; if
more periods elapsed than remained (trailing marking inferred as idle) and
the edge is to HIGH, the edge is the start bit of the next character. -/
def receiveISR (s : DecodeState) (thisBitTCNT : Nat) (pinLevel : Bool) : DecodeState :=
  if s.rxState = WAITING_FOR_START_BIT then
    if pinLevel then { startChar s with prevBitTCNT := thisBitTCNT }
    else { s with prevBitTCNT := thisBitTCNT }
  else
    let rxBits := (thisBitTCNT - s.prevBitTCNT) / SDI12_BIT_WIDTH_MICROS
    let bitsLeft := 9 - s.rxState
    let nextCharStarted := bitsLeft < rxBits
    let fill := (List.replicate (rxBits - 1) pinLevel ++ [!pinLevel]).take (min rxBits bitsLeft)
    let s1 := fill.foldl feedBit s
    let s2 :=
      if s1.rxState = WAITING_FOR_START_BIT ∧ pinLevel = true ∧ nextCharStarted
      then startChar s1 else s1
    { s2 with prevBitTCNT := thisBitTCNT }

/-- Run the decoder over a list of edge events. -/
def decodeRun (s : DecodeState) (edges : List (Nat × Bool)) : DecodeState :=
  edges.foldl (fun st e => receiveISR st e.1 e.2) s

/-- The initial decode state: waiting for a start bit, nothing delivered. -/
def initDecodeState : DecodeState :=
  { rxState := WAITING_FOR_START_BIT, rxMask := 1, rxValue := 0,
    prevBitTCNT := 0, _parityFailure := false, delivered := [] }

/-- The edge events of transmitting the bytes `bs` starting at time 0 from
an idle (marking, LOW) line, followed by the rising edge that starts the
next break or start bit (the line's first return to spacing). -/
def txEdges (bs : List Nat) : List (Nat × Bool) :=
  lineEdges 0 false (framesOf bs ++ [true])

/-! ## The shared circular receive buffer -/

/-- The shared Rx buffer: `_rxBuffer` (fixed array of `SDI12_BUFFER_SIZE`
bytes), head and tail indices, and the sticky `_bufferOverflow` flag
(all from `src/SDI12.h`). -/
structure RxBufferState where
  _rxBuffer : List Nat
  _rxBufferHead : Nat
  _rxBufferTail : Nat
  _bufferOverflow : Bool
deriving DecidableEq, Repr

/-- The buffer at start-up: zeroed storage, head = tail = 0, no overflow. -/
def initRxBuffer : RxBufferState :=
  { _rxBuffer := List.replicate SDI12_BUFFER_SIZE 0,
    _rxBufferHead := 0, _rxBufferTail := 0, _bufferOverflow := false }

/-- Modelled from the spec: `charToBuffer` (missing `SDI12.cpp`) — put a
finished character into the buffer: if the write would make the tail catch
up to the head (buffer full) the byte is dropped and the sticky overflow
flag is set, otherwise the byte is stored at the tail and the tail advances
modulo the capacity. -/
def charToBuffer (r : RxBufferState) (c : Nat) : RxBufferState :=
  if (r._rxBufferTail + 1) % SDI12_BUFFER_SIZE = r._rxBufferHead then
    { r with _bufferOverflow := true }
  else
    { r with _rxBuffer := r._rxBuffer.set r._rxBufferTail c,
             _rxBufferTail := (r._rxBufferTail + 1) % SDI12_BUFFER_SIZE }

/-- `available()`: the number of unread bytes,
`(_rxBufferTail + SDI12_BUFFER_SIZE - _rxBufferHead) % SDI12_BUFFER_SIZE`,
or -1 after a buffer overflow — formula and overflow sentinel from the
documentation of `available()` in `src/SDI12.h` (body in the missing
`SDI12.cpp`). -/
def available (r : RxBufferState) : Int :=
  if r._bufferOverflow then -1
  else ((r._rxBufferTail + SDI12_BUFFER_SIZE - r._rxBufferHead) % SDI12_BUFFER_SIZE : Nat)

/-- `clearBuffer()`: clears the buffer contents by setting the index of both
head and tail back to zero (per the `src/SDI12.h` contract); the overflow
flag is not touched. -/
def clearBuffer (r : RxBufferState) : RxBufferState :=
  { r with _rxBufferHead := 0, _rxBufferTail := 0 }

/-- The unread bytes currently in the buffer, head first (observer used to
state round-trip properties). -/
def rxBufferContents (r : RxBufferState) : List Nat :=
  (List.range ((r._rxBufferTail + SDI12_BUFFER_SIZE - r._rxBufferHead) % SDI12_BUFFER_SIZE)).map
    (fun i => r._rxBuffer.getD ((r._rxBufferHead + i) % SDI12_BUFFER_SIZE) 0)

/-- Feed a list of finished characters into the buffer in order. -/
def feedBuffer (r : RxBufferState) (cs : List Nat) : RxBufferState :=
  cs.foldl charToBuffer r

/-- The full receive pipeline: decode the transmitted edges, then push every
delivered character into the shared buffer, and read the unread bytes. -/
def sdi12RoundTrip (bs : List Nat) : List Nat :=
  rxBufferContents (feedBuffer initRxBuffer (decodeRun initDecodeState (txEdges bs)).delivered)

/-! ## CRC16 -/

/-- Modelled from the spec: one shift-xor round of the SDI-12 CRC16
(`calculateCRC` lives in the missing `SDI12.cpp`; the SDI-12 specification
v1.4 CRC uses the reflected polynomial 0xA001 with initial value 0). -/
def crcStep (crc : Nat) : Nat :=
  if crc &&& 0x0001 = 1 then (crc >>> 1) ^^^ 0xA001 else crc >>> 1

/-- Modelled from the spec: folding one message byte into the CRC —
XOR the byte into the CRC, then eight shift-xor rounds. -/
def crcUpdateByte (crc c : Nat) : Nat :=
  (List.range 8).foldl (fun acc _ => crcStep acc) (crc ^^^ c)

/-- Modelled from the spec: `calculateCRC` (missing `SDI12.cpp`) — the
16-bit CRC of a message, folded over its bytes from initial value 0. -/
def calculateCRC (resp : List Nat) : Nat :=
  resp.foldl crcUpdateByte 0

/-- `crcToString`: the 16-bit CRC encoded as three ASCII characters —
char1 = 0x40 OR (crc >> 12), char2 = 0x40 OR ((crc >> 6) AND 0x3F),
char3 = 0x40 OR (crc AND 0x3F) — algorithm from `src/SDI12.h`. -/
def crcToString (crc : Nat) : List Nat :=
  [0x40 ||| (crc >>> 12), 0x40 ||| ((crc >>> 6) &&& 0x3F), 0x40 ||| (crc &&& 0x3F)]

/-- Modelled from the spec: `verifyCRC` (missing `SDI12.cpp`) — recompute
the CRC over all characters preceding the trailing 3-character CRC field
(and the CR LF terminator), encode it, and compare it to the 3 characters
actually present. -/
def verifyCRC (respWithCRC : List Nat) : Bool :=
  let dataLen := respWithCRC.length - 5
  let data := respWithCRC.take dataLen
  let crcChars := (respWithCRC.drop dataLen).take 3
  crcChars == crcToString (calculateCRC data)

/-- A message carrying a CRC: the payload, its encoded CRC, then CR LF. -/
def msgWithCRC (x : List Nat) : List Nat :=
  x ++ crcToString (calculateCRC x) ++ [13, 10]

/-! ## Instance arbitration (`setActive` / `isActive`) -/

/-- The process-wide registry: the static `_activeObject` pointer plus the
line state of every instance (instances named by `Nat` identifiers). -/
structure SDI12Registry where
  _activeObject : Option Nat
  lineState : Nat → SDI12_STATES

/-- Modelled from the spec: `setActive()` (missing `SDI12.cpp`) — if the
instance is already the active one, nothing changes and the result is
`false`; otherwise the instance is promoted to the active one, transitions
to `SDI12_HOLDING`, and the result is `true`. -/
def setActive (reg : SDI12Registry) (i : Nat) : SDI12Registry × Bool :=
  if reg._activeObject = some i then (reg, false)
  else ({ _activeObject := some i,
          lineState := fun j => if j = i then .SDI12_HOLDING else reg.lineState j },
        true)

/-- Modelled from the spec: `isActive()` — whether this instance is the
active object. -/
def isActive (reg : SDI12Registry) (i : Nat) : Bool :=
  reg._activeObject = some i

/-! ## Wake sequence (`wakeSensors`) -/

/-- One step of the transmit-side trace: a line-state change, the line held
at a level for a duration in microseconds, or a plain wait in milliseconds. -/
inductive TxEvent
  | setStateTo (st : SDI12_STATES)
  | holdLine (levelHigh : Bool) (micros : Nat)
  | waitMillis (ms : Nat)
deriving DecidableEq, Repr

/-- Modelled from the spec: `wakeSensors(extraWakeTime)` (missing
`SDI12.cpp`) — set the state to `SDI12_TRANSMITTING`, hold the line HIGH
for the break (`SDI12_LINE_BREAK_MICROS`), hold it LOW for the marking
(`SDI12_LINE_MARK_MICROS`), then wait the caller's extra wake delay. -/
def wakeSensors (extraWakeTime : Nat) : List TxEvent :=
  [ .setStateTo .SDI12_TRANSMITTING,
    .holdLine true SDI12_LINE_BREAK_MICROS,
    .holdLine false SDI12_LINE_MARK_MICROS,
    .waitMillis extraWakeTime ]

/-! ## Instance construction and stream configuration -/

/-- The per-instance fields the stream-style surface needs: the data pin
(`int8_t _dataPin = -1` in `src/SDI12.h`), the configurable timeout return
value `TIMEOUT`, and the stream timeout in milliseconds.  `TIMEOUT` and the
stream timeout only acquire their documented values in `begin()`; before
that they model the uninitialised fields as 0. -/
structure SDI12Device where
  _dataPin : Int
  TIMEOUT : Int
  timeoutMillis : Nat
deriving DecidableEq, Repr

/-- `SDI12()`: the no-argument constructor leaves the data pin unset —
`_dataPin` keeps its in-class initialiser `-1` from `src/SDI12.h`. -/
def SDI12_new : SDI12Device :=
  { _dataPin := -1, TIMEOUT := 0, timeoutMillis := 0 }

/-- Modelled from the spec: `SDI12(dataPin)` (missing `SDI12.cpp`) —
constructs the instance with `_dataPin` assigned the given pin number. -/
def SDI12_newWithPin (dataPin : Int) : SDI12Device :=
  { SDI12_new with _dataPin := dataPin }

/-- `getDataPin()`: the data pin of the instance. -/
def getDataPin (d : SDI12Device) : Int :=
  d._dataPin

/-- Modelled from the spec: `setDataPin(dataPin)` assigns the data pin. -/
def setDataPin (d : SDI12Device) (dataPin : Int) : SDI12Device :=
  { d with _dataPin := dataPin }

/-- Modelled from the spec: `begin()` (missing `SDI12.cpp`) — sets the
stream timeout to 150 ms to match the SDI-12 spec and the timeout return
value to -9999 (activation and line-state effects are covered by
`setActive`). -/
def beginSDI12 (d : SDI12Device) : SDI12Device :=
  { d with TIMEOUT := -9999, timeoutMillis := 150 }

/-- Modelled from the spec: `begin(dataPin)` — set the data pin, then
`begin()`. -/
def beginSDI12WithPin (d : SDI12Device) (dataPin : Int) : SDI12Device :=
  beginSDI12 (setDataPin d dataPin)

/-- `setTimeoutValue(value)`: set the value returned when a parse times
out (from `src/SDI12.h`). -/
def setTimeoutValue (d : SDI12Device) (value : Int) : SDI12Device :=
  { d with TIMEOUT := value }

/-! ## Numeric parsing (`parseInt` / `parseFloat`) -/

/-- Whether a byte is an ASCII decimal digit. -/
def isDigitChar (c : Nat) : Bool :=
  48 ≤ c && c ≤ 57

/-- Modelled from the spec: `peekNextDigit` (missing `SDI12.cpp`) — under
`SKIP_NONE` the stream is not touched unless the first waiting character is
valid: a digit, `+`, `-`, or (when detecting decimals) `.`; `none` models
both a timeout with the buffer empty and an invalid first character. -/
def peekNextDigit (buf : List Nat) (detectDecimal : Bool) : Option Nat :=
  match buf with
  | [] => none
  | c :: _ =>
    if isDigitChar c || c == 43 || c == 45 || (detectDecimal && c == 46)
    then some c else none

/-- Modelled from the spec: the accumulation loop of `parseInt` — keep
consuming digits (and the never-matching `NO_IGNORE_CHAR`), stopping at the
first other character. -/
def parseIntLoop : List Nat → Int → Int
  | [], value => value
  | c :: rest, value =>
    if c == NO_IGNORE_CHAR then parseIntLoop rest value
    else if isDigitChar c then parseIntLoop rest (value * 10 + (c : Int) - 48)
    else value

/-- Modelled from the spec: `parseInt(LookaheadMode, char)` (missing
`SDI12.cpp`) — per the header contract, any input `LookaheadMode` or ignore
character is ignored: the function always behaves as `SKIP_NONE` with
`NO_IGNORE_CHAR`, accepts `+` or `-` only as the first character, and
returns the `TIMEOUT` value when the buffer stays empty or the first
character is not part of an integer. -/
def parseInt (d : SDI12Device) (_lookahead : LookaheadMode) (_ignore : Nat)
    (buf : List Nat) : Int :=
  match peekNextDigit buf false with
  | none => d.TIMEOUT
  | some c =>
    let negative := c == 45
    let value0 : Int := if isDigitChar c then (c : Int) - 48 else 0
    let value := parseIntLoop (buf.drop 1) value0
    if negative then -value else value

/-- Modelled from the spec: the accumulation loop of `parseFloat` — digits
scale the value (and the fraction once a decimal point was seen), a single
decimal point switches to fraction mode, anything else stops the loop. -/
def parseFloatLoop : List Nat → Int → Rat → Bool → Int × Rat × Bool
  | [], value, fraction, isFraction => (value, fraction, isFraction)
  | c :: rest, value, fraction, isFraction =>
    if c == NO_IGNORE_CHAR then parseFloatLoop rest value fraction isFraction
    else if isDigitChar c then
      parseFloatLoop rest (value * 10 + (c : Int) - 48)
        (if isFraction then fraction / 10 else fraction) isFraction
    else if c == 46 && !isFraction then parseFloatLoop rest value fraction true
    else (value, fraction, isFraction)

/-- Modelled from the spec: `parseFloat(LookaheadMode, char)` (missing
`SDI12.cpp`) — identical to `parseInt` except that it accepts one decimal
point; the numeric value is modelled exactly (as a rational).  The input
`LookaheadMode` and ignore character are ignored per the header contract. -/
def parseFloat (d : SDI12Device) (_lookahead : LookaheadMode) (_ignore : Nat)
    (buf : List Nat) : Rat :=
  match peekNextDigit buf true with
  | none => (d.TIMEOUT : Rat)
  | some c =>
    let negative := c == 45
    let isFraction0 := c == 46
    let value0 : Int := if isDigitChar c then (c : Int) - 48 else 0
    let r := parseFloatLoop (buf.drop 1) value0 1 isFraction0
    let value := if negative then -r.1 else r.1
    if r.2.2 then (value : Rat) * r.2.1 else (value : Rat)

/-! ## Observer definitions used to state the theorems -/

/-- A frame whose parity bit is transmitted at the wrong electrical level
(the inverse of the correct even-parity level), used to exercise the parity
check of the decoder. -/
def writeCharBadParity (out : Nat) : List Bool :=
  true :: ((List.range 7).map (fun i => !(out.testBit i)) ++
    [parity_even_bit out, false])

/-- Shift every edge timestamp by a constant offset. -/
def shiftEdges (δ : Nat) (es : List (Nat × Bool)) : List (Nat × Bool) :=
  es.map (fun e => (e.1 + δ, e.2))

/-- The decoder state right after a start-bit edge at time `t`, with the
bytes `d` already delivered. -/
def startStateAt (t : Nat) (d : List Nat) : DecodeState :=
  { rxState := 0, rxMask := 1, rxValue := 0, prevBitTCNT := t,
    _parityFailure := false, delivered := d }

/-- The decoder state after consuming all edges that lie strictly inside the
frame of byte `b` (the frame's start edge at time 0 already processed). -/
def pendingCore (b : Nat) : DecodeState :=
  decodeRun (startStateAt 0 []) (lineEdges SDI12_BIT_WIDTH_MICROS true ((writeChar b).tail))

set_option maxRecDepth 10000 in
/-- Completing a frame: from the mid-frame state of byte `b`, the rising edge
one full frame after the start bit delivers exactly `b`, leaves the parity
flag clear, and begins the next character. -/
theorem frame_completion : ∀ b < 128,
    receiveISR (pendingCore b) (10 * SDI12_BIT_WIDTH_MICROS) true =
      startStateAt (10 * SDI12_BIT_WIDTH_MICROS) [b] := by decide

theorem feedBit_surgery (s : DecodeState) (v : Bool) (p : Nat) (d : List Nat) :
    feedBit { s with prevBitTCNT := p, delivered := d ++ s.delivered } v =
      { (feedBit s v) with
        prevBitTCNT := p
        delivered := d ++ (feedBit s v).delivered } := by
  simp only [feedBit]
  split
  · rfl
  · split
    · rfl
    · split
      · rfl
      · simp

theorem foldl_feedBit_surgery (l : List Bool) (s : DecodeState) (p : Nat) (d : List Nat) :
    l.foldl feedBit { s with prevBitTCNT := p, delivered := d ++ s.delivered } =
      { (l.foldl feedBit s) with
        prevBitTCNT := p
        delivered := d ++ (l.foldl feedBit s).delivered } := by
  induction l generalizing s with
  | nil => rfl
  | cons v rest ih =>
    simp only [List.foldl_cons, feedBit_surgery, ih]

theorem receiveISR_surgery (s : DecodeState) (t : Nat) (lvl : Bool) (δ : Nat) (d : List Nat) :
    receiveISR { s with prevBitTCNT := s.prevBitTCNT + δ, delivered := d ++ s.delivered }
        (t + δ) lvl =
      { (receiveISR s t lvl) with
        prevBitTCNT := (receiveISR s t lvl).prevBitTCNT + δ
        delivered := d ++ (receiveISR s t lvl).delivered } := by
  simp only [receiveISR, Nat.add_sub_add_right]
  split
  · split <;> rfl
  · simp only [foldl_feedBit_surgery]
    split <;> rfl

theorem decodeRun_surgery (es : List (Nat × Bool)) (s : DecodeState) (δ : Nat) (d : List Nat) :
    decodeRun { s with prevBitTCNT := s.prevBitTCNT + δ, delivered := d ++ s.delivered }
        (shiftEdges δ es) =
      { (decodeRun s es) with
        prevBitTCNT := (decodeRun s es).prevBitTCNT + δ
        delivered := d ++ (decodeRun s es).delivered } := by
  induction es generalizing s with
  | nil => rfl
  | cons e rest ih =>
    simp only [decodeRun, shiftEdges, List.map_cons, List.foldl_cons]
    have h1 := receiveISR_surgery s e.1 e.2 δ d
    simp only [decodeRun, shiftEdges] at ih ⊢
    rw [h1, ih]

theorem lineEdges_shift (δ : Nat) (l : Bool) (lvls : List Bool) : ∀ t : Nat,
    lineEdges (t + δ) l lvls = shiftEdges δ (lineEdges t l lvls) := by
  induction lvls generalizing l with
  | nil => intro t; rfl
  | cons b rest ih =>
    intro t
    simp only [lineEdges]
    split
    · rw [show t + δ + SDI12_BIT_WIDTH_MICROS = (t + SDI12_BIT_WIDTH_MICROS) + δ by omega, ih]
    · simp only [shiftEdges, List.map_cons]
      rw [show t + δ + SDI12_BIT_WIDTH_MICROS = (t + SDI12_BIT_WIDTH_MICROS) + δ by omega, ih]
      rfl

theorem lineEdges_append (xs ys : List Bool) : ∀ (t : Nat) (l : Bool),
    lineEdges t l (xs ++ ys) =
      lineEdges t l xs ++
        lineEdges (t + SDI12_BIT_WIDTH_MICROS * xs.length) (xs.getLastD l) ys := by
  induction xs with
  | nil => intro t l; simp [lineEdges]
  | cons b rest ih =>
    intro t l
    simp only [List.cons_append, lineEdges, List.getLastD_cons, List.length_cons]
    have harith : t + SDI12_BIT_WIDTH_MICROS + SDI12_BIT_WIDTH_MICROS * rest.length =
        t + SDI12_BIT_WIDTH_MICROS * (rest.length + 1) := by ring
    split
    · next h =>
        subst h
        simp only [List.append_eq] at ih ⊢
        rw [ih, harith]
    · simp only [List.append_eq] at ih ⊢
      rw [ih, harith]
      rfl

theorem decodeRun_append (s : DecodeState) (es1 es2 : List (Nat × Bool)) :
    decodeRun s (es1 ++ es2) = decodeRun (decodeRun s es1) es2 := by
  simp [decodeRun, List.foldl_append]

theorem writeChar_eq_cons (b : Nat) : writeChar b = true :: (writeChar b).tail := by
  simp [writeChar]

theorem writeChar_tail_length (b : Nat) : (writeChar b).tail.length = 9 := by
  simp [writeChar]

theorem writeChar_tail_getLastD (b : Nat) (l : Bool) :
    (writeChar b).tail.getLastD l = false := by
  simp only [writeChar, List.tail_cons]
  rw [show [!(parity_even_bit b), false] = [!(parity_even_bit b)] ++ [false] by rfl,
    ← List.append_assoc]
  exact List.getLastD_concat _ _ _

theorem lineEdges_cons_true (t : Nat) (xs : List Bool) :
    lineEdges t false (true :: xs) =
      (t, true) :: lineEdges (t + SDI12_BIT_WIDTH_MICROS) true xs := by
  simp [lineEdges]

theorem startStateAt_as_surgery (t : Nat) (d : List Nat) :
    startStateAt t d =
      { (startStateAt 0 []) with
        prevBitTCNT := (startStateAt 0 []).prevBitTCNT + t
        delivered := d ++ (startStateAt 0 []).delivered } := by
  simp [startStateAt]

theorem decode_one_frame (b t : Nat) (d : List Nat) (hb : b < 128) :
    decodeRun (startStateAt t d)
        (lineEdges (t + SDI12_BIT_WIDTH_MICROS) true ((writeChar b).tail) ++
          [(t + 10 * SDI12_BIT_WIDTH_MICROS, true)]) =
      startStateAt (t + 10 * SDI12_BIT_WIDTH_MICROS) (d ++ [b]) := by
  rw [decodeRun_append]
  rw [show t + SDI12_BIT_WIDTH_MICROS = SDI12_BIT_WIDTH_MICROS + t by ring]
  rw [lineEdges_shift t true ((writeChar b).tail) SDI12_BIT_WIDTH_MICROS]
  rw [startStateAt_as_surgery t d]
  rw [decodeRun_surgery]
  have hrun : decodeRun (startStateAt 0 [])
      (lineEdges SDI12_BIT_WIDTH_MICROS true ((writeChar b).tail)) = pendingCore b := rfl
  rw [hrun]
  show decodeRun _ [(t + 10 * SDI12_BIT_WIDTH_MICROS, true)] = _
  simp only [decodeRun, List.foldl_cons, List.foldl_nil]
  rw [show t + 10 * SDI12_BIT_WIDTH_MICROS = 10 * SDI12_BIT_WIDTH_MICROS + t by ring]
  rw [receiveISR_surgery (pendingCore b) (10 * SDI12_BIT_WIDTH_MICROS) true t d]
  rw [frame_completion b hb]
  simp [startStateAt, Nat.add_comm]

theorem decode_frames (bs : List Nat) : ∀ (b t : Nat) (d : List Nat), b < 128 →
    (∀ x ∈ bs, x < 128) →
    decodeRun (startStateAt t d)
        (lineEdges (t + SDI12_BIT_WIDTH_MICROS) true
          ((writeChar b).tail ++ (framesOf bs ++ [true]))) =
      startStateAt (t + 10 * SDI12_BIT_WIDTH_MICROS * (bs.length + 1)) (d ++ b :: bs) := by
  induction bs with
  | nil =>
    intro b t d hb _
    simp only [framesOf, List.map_nil, List.flatten_nil, List.nil_append]
    rw [lineEdges_append, writeChar_tail_length, writeChar_tail_getLastD]
    rw [show lineEdges (t + SDI12_BIT_WIDTH_MICROS + SDI12_BIT_WIDTH_MICROS * 9) false [true] =
        [(t + 10 * SDI12_BIT_WIDTH_MICROS, true)] by
      rw [show t + SDI12_BIT_WIDTH_MICROS + SDI12_BIT_WIDTH_MICROS * 9 =
          t + 10 * SDI12_BIT_WIDTH_MICROS by ring]
      simp [lineEdges]]
    rw [decode_one_frame b t d hb]
    simp only [List.length_nil, Nat.zero_add, Nat.mul_one]
  | cons b' rest ih =>
    intro b t d hb hall
    have hb' : b' < 128 := hall b' (by simp)
    have hrest : ∀ x ∈ rest, x < 128 := fun x hx => hall x (by simp [hx])
    rw [show framesOf (b' :: rest) = writeChar b' ++ framesOf rest by simp [framesOf]]
    rw [lineEdges_append, writeChar_tail_length, writeChar_tail_getLastD]
    rw [show t + SDI12_BIT_WIDTH_MICROS + SDI12_BIT_WIDTH_MICROS * 9 =
        t + 10 * SDI12_BIT_WIDTH_MICROS by ring]
    rw [show writeChar b' ++ framesOf rest ++ [true] =
        true :: ((writeChar b').tail ++ (framesOf rest ++ [true])) by
      conv_lhs => rw [writeChar_eq_cons b']
      simp]
    rw [lineEdges_cons_true]
    rw [show ((t + 10 * SDI12_BIT_WIDTH_MICROS, true) ::
        lineEdges (t + 10 * SDI12_BIT_WIDTH_MICROS + SDI12_BIT_WIDTH_MICROS) true
          ((writeChar b').tail ++ (framesOf rest ++ [true]))) =
        [(t + 10 * SDI12_BIT_WIDTH_MICROS, true)] ++
        lineEdges (t + 10 * SDI12_BIT_WIDTH_MICROS + SDI12_BIT_WIDTH_MICROS) true
          ((writeChar b').tail ++ (framesOf rest ++ [true])) by rfl]
    rw [← List.append_assoc, decodeRun_append, decode_one_frame b t d hb]
    rw [ih b' (t + 10 * SDI12_BIT_WIDTH_MICROS) (d ++ [b]) hb' hrest]
    simp only [List.length_cons]
    rw [show t + 10 * SDI12_BIT_WIDTH_MICROS +
        10 * SDI12_BIT_WIDTH_MICROS * (rest.length + 1) =
        t + 10 * SDI12_BIT_WIDTH_MICROS * (rest.length + 1 + 1) by ring]
    simp

theorem decode_txEdges (bs : List Nat) (h : ∀ b ∈ bs, b < 128) :
    decodeRun initDecodeState (txEdges bs) =
      startStateAt (10 * SDI12_BIT_WIDTH_MICROS * bs.length) bs := by
  cases bs with
  | nil => rfl
  | cons b rest =>
    have hb : b < 128 := h b (by simp)
    have hrest : ∀ x ∈ rest, x < 128 := fun x hx => h x (by simp [hx])
    rw [show txEdges (b :: rest) =
        lineEdges 0 false (true :: ((writeChar b).tail ++ (framesOf rest ++ [true]))) by
      simp only [txEdges]
      rw [show framesOf (b :: rest) = writeChar b ++ framesOf rest by simp [framesOf]]
      conv_lhs => rw [writeChar_eq_cons b]
      simp]
    rw [lineEdges_cons_true]
    rw [show ((0, true) :: lineEdges (0 + SDI12_BIT_WIDTH_MICROS) true
        ((writeChar b).tail ++ (framesOf rest ++ [true]))) =
        [(0, true)] ++ lineEdges (0 + SDI12_BIT_WIDTH_MICROS) true
        ((writeChar b).tail ++ (framesOf rest ++ [true])) by rfl]
    rw [decodeRun_append]
    rw [show decodeRun initDecodeState [(0, true)] = startStateAt 0 [] by rfl]
    rw [decode_frames rest b 0 [] hb hrest]
    simp [List.length_cons]

theorem feedBuffer_fill (bs : List Nat) (h : bs.length ≤ 80) :
    feedBuffer initRxBuffer bs =
      { _rxBuffer := bs ++ List.replicate (SDI12_BUFFER_SIZE - bs.length) 0,
        _rxBufferHead := 0, _rxBufferTail := bs.length, _bufferOverflow := false } := by
  induction bs using List.reverseRecOn with
  | nil => rfl
  | append_singleton l c ih =>
    have hl : l.length ≤ 79 := by
      have h2 := h
      simp only [List.length_append, List.length_cons, List.length_nil] at h2
      omega
    rw [show feedBuffer initRxBuffer (l ++ [c]) =
        charToBuffer (feedBuffer initRxBuffer l) c by
      simp [feedBuffer, List.foldl_append]]
    rw [ih (by omega)]
    simp only [charToBuffer, SDI12_BUFFER_SIZE]
    rw [if_neg (by omega : ¬(l.length + 1) % 81 = 0)]
    have hset : (l ++ List.replicate (81 - l.length) 0).set l.length c =
        (l ++ [c]) ++ List.replicate (81 - (l ++ [c]).length) 0 := by
      rw [List.set_append_right _ _ (Nat.le_refl _), Nat.sub_self]
      rw [show (81 - l.length) = (80 - l.length) + 1 by omega]
      simp [List.replicate_succ]
    rw [hset]
    have htail : (l.length + 1) % 81 = (l ++ [c]).length := by
      simp only [List.length_append, List.length_cons, List.length_nil]
      omega
    rw [htail]

theorem range_map_getD (l : List Nat) :
    (List.range l.length).map (fun i => l.getD i 0) = l := by
  apply List.ext_getElem
  · simp
  · intro i h1 h2
    simp [List.getElem?_eq_getElem h2]

theorem rxBufferContents_fill (bs : List Nat) (h : bs.length ≤ 80) :
    rxBufferContents (feedBuffer initRxBuffer bs) = bs := by
  rw [feedBuffer_fill bs h]
  simp only [rxBufferContents, SDI12_BUFFER_SIZE]
  rw [show (bs.length + 81 - 0) % 81 = bs.length by omega]
  have hmap : ∀ i ∈ List.range bs.length,
      ((bs ++ List.replicate (81 - bs.length) 0).getD ((0 + i) % 81) 0) = bs.getD i 0 := by
    intro i hi
    rw [List.mem_range] at hi
    rw [show (0 + i) % 81 = i by omega]
    exact List.getD_append _ _ _ _ (by omega)
  rw [List.map_congr_left hmap, range_map_getD]

/-- Claim C1, counterexample: the 10-bit frame of byte 1 alone (its own
edges, with no later edge) does not deliver the byte — the frame of an
odd-popcount byte ends in an unbroken LOW run, so the purely edge-driven
decoder cannot finish the character until a further edge arrives. -/
theorem writeChar_frame_alone_not_delivered :
    (decodeRun initDecodeState (lineEdges 0 false (framesOf [1]))).delivered ≠ [1] := by
  decide

/-- Claim C1, amended: for every sequence of bytes 0–127, feeding the frames
emitted by `writeChar` into the receive decoder as simulated edges, followed
by the one rising edge that ends the final stop bit (the line's next return
to spacing), delivers exactly the original bytes, with the received parity
matching the sent parity for every byte; and, for sequences that fit the
81-byte buffer (at most 80 unread bytes), the receive buffer then holds
exactly the original sequence. -/
theorem encode_decode_roundTrip (bs : List Nat) (h : ∀ b ∈ bs, b < 128) :
    (decodeRun initDecodeState (txEdges bs)).delivered = bs ∧
      (decodeRun initDecodeState (txEdges bs))._parityFailure = false ∧
      (bs.length ≤ 80 → sdi12RoundTrip bs = bs) := by
  rw [decode_txEdges bs h]
  refine ⟨rfl, rfl, fun hlen => ?_⟩
  simp only [sdi12RoundTrip]
  rw [decode_txEdges bs h]
  exact rxBufferContents_fill bs hlen

/-- Witness for claim C1 at the concrete message `0M\r\n`. -/
theorem encode_decode_roundTrip_witness :
    sdi12RoundTrip [48, 77, 13, 10] = [48, 77, 13, 10] ∧
      (decodeRun initDecodeState (txEdges [48, 77, 13, 10]))._parityFailure = false :=
  ⟨(encode_decode_roundTrip [48, 77, 13, 10] (by decide)).2.2 (by decide),
   (encode_decode_roundTrip [48, 77, 13, 10] (by decide)).2.1⟩

/-- Claim C2: after N completed characters arrive in the empty buffer with
no intervening reads, `available()` returns exactly N for N below the
capacity (81); when a character arrives with the buffer full (the 81st),
the sticky overflow flag is set and `available()` returns the -1 sentinel,
and it keeps returning -1 as long as the overflow is not cleared. -/
theorem available_counts_unread (bs : List Nat) :
    (bs.length < SDI12_BUFFER_SIZE →
      available (feedBuffer initRxBuffer bs) = bs.length) ∧
    (bs.length = SDI12_BUFFER_SIZE →
      (feedBuffer initRxBuffer bs)._bufferOverflow = true ∧
        available (feedBuffer initRxBuffer bs) = -1) ∧
    (∀ (r : RxBufferState) (c : Nat), r._bufferOverflow = true →
      (charToBuffer r c)._bufferOverflow = true ∧ available (charToBuffer r c) = -1) := by
  refine ⟨fun hlt => ?_, fun heq => ?_, fun r c hov => ?_⟩
  · have hlen : bs.length ≤ 80 := by
      simp only [SDI12_BUFFER_SIZE] at hlt; omega
    rw [feedBuffer_fill bs hlen]
    simp [available, SDI12_BUFFER_SIZE]
    omega
  · induction bs using List.reverseRecOn with
    | nil => simp [SDI12_BUFFER_SIZE] at heq
    | append_singleton l c _ =>
      have hl : l.length = 80 := by
        simp only [SDI12_BUFFER_SIZE, List.length_append, List.length_cons,
          List.length_nil] at heq
        omega
      rw [show feedBuffer initRxBuffer (l ++ [c]) =
          charToBuffer (feedBuffer initRxBuffer l) c by
        simp [feedBuffer, List.foldl_append]]
      rw [feedBuffer_fill l (by omega)]
      simp [charToBuffer, available, SDI12_BUFFER_SIZE, hl]
  · simp only [charToBuffer]
    split
    · simp [available]
    · simp [available, hov]

/-- Witness for claim C2: three arrivals give 3; eighty-one give -1. -/
theorem available_counts_unread_witness :
    available (feedBuffer initRxBuffer [1, 2, 3]) = 3 ∧
      available (feedBuffer initRxBuffer (List.replicate 81 7)) = -1 :=
  ⟨by simpa using (available_counts_unread [1, 2, 3]).1 (by decide),
   ((available_counts_unread (List.replicate 81 7)).2.1 (by simp [SDI12_BUFFER_SIZE])).2⟩

/-- Claim C8: `clearBuffer()` leaves the head index equal to the tail index
(it resets both to zero) and leaves the sticky buffer-overflow flag exactly
as it was, for every buffer state — so clearing alone never resets an
overflow. -/
theorem clearBuffer_resets_indices_keeps_overflow (r : RxBufferState) :
    (clearBuffer r)._rxBufferHead = (clearBuffer r)._rxBufferTail ∧
      (clearBuffer r)._bufferOverflow = r._bufferOverflow :=
  ⟨rfl, rfl⟩

theorem crcStep_lt {c : Nat} (h : c < 65536) : crcStep c < 65536 := by
  have h1 : c >>> 1 < 65536 := by
    rw [Nat.shiftRight_eq_div_pow]
    omega
  simp only [crcStep]
  split
  · exact Nat.xor_lt_two_pow (n := 16) h1 (by norm_num)
  · exact h1

theorem crcStep_inj {a b : Nat} (ha : a < 65536) (hb : b < 65536)
    (h : crcStep a = crcStep b) : a = b := by
  have hP : (0xA001 : Nat).testBit 15 = true := by decide
  have hhalf : ∀ x : Nat, x < 65536 → x >>> 1 < 32768 := by
    intro x hx
    rw [Nat.shiftRight_eq_div_pow]
    omega
  have hbit : ∀ x : Nat, x < 65536 → ((x >>> 1) ^^^ 0xA001).testBit 15 = true := by
    intro x hx
    rw [Nat.testBit_xor, Nat.testBit_lt_two_pow (by simpa using hhalf x hx), hP]
    rfl
  have hbit0 : ∀ x : Nat, x < 65536 → (x >>> 1).testBit 15 = false := by
    intro x hx
    exact Nat.testBit_lt_two_pow (by simpa using hhalf x hx)
  have hdiv : ∀ x : Nat, x >>> 1 = x / 2 := by
    intro x
    rw [Nat.shiftRight_eq_div_pow]
  simp only [crcStep, Nat.and_one_is_mod] at h
  by_cases h1 : a % 2 = 1 <;> by_cases h2 : b % 2 = 1
  · rw [if_pos h1, if_pos h2, Nat.xor_left_inj] at h
    rw [hdiv, hdiv] at h
    omega
  · rw [if_pos h1, if_neg h2] at h
    have := hbit a ha
    rw [h, hbit0 b hb] at this
    exact absurd this (by simp)
  · rw [if_neg h1, if_pos h2] at h
    have := hbit b hb
    rw [← h, hbit0 a ha] at this
    exact absurd this (by simp)
  · rw [if_neg h1, if_neg h2] at h
    rw [hdiv, hdiv] at h
    omega

theorem crcRounds_lt (l : List Nat) {c : Nat} (h : c < 65536) :
    l.foldl (fun acc _ => crcStep acc) c < 65536 := by
  induction l generalizing c with
  | nil => exact h
  | cons x rest ih => exact ih (crcStep_lt h)

theorem crcRounds_inj (l : List Nat) {a b : Nat} (ha : a < 65536) (hb : b < 65536)
    (h : l.foldl (fun acc _ => crcStep acc) a = l.foldl (fun acc _ => crcStep acc) b) :
    a = b := by
  induction l generalizing a b with
  | nil => exact h
  | cons x rest ih =>
    exact crcStep_inj ha hb (ih (crcStep_lt ha) (crcStep_lt hb) h)

theorem crcUpdateByte_lt {c b : Nat} (hc : c < 65536) (hb : b < 256) :
    crcUpdateByte c b < 65536 := by
  exact crcRounds_lt _ (Nat.xor_lt_two_pow (n := 16) hc (by omega))

theorem crcUpdateByte_inj {c c' b : Nat} (hc : c < 65536) (hc' : c' < 65536)
    (hb : b < 256) (h : crcUpdateByte c b = crcUpdateByte c' b) : c = c' := by
  have h1 := crcRounds_inj (List.range 8)
    (Nat.xor_lt_two_pow (n := 16) hc (by omega))
    (Nat.xor_lt_two_pow (n := 16) hc' (by omega)) h
  exact Nat.xor_left_injective h1

theorem crcUpdateByte_ne {c b b' : Nat} (hc : c < 65536) (hb : b < 256) (hb' : b' < 256)
    (hne : b ≠ b') : crcUpdateByte c b ≠ crcUpdateByte c b' := by
  intro h
  have h1 := crcRounds_inj (List.range 8)
    (Nat.xor_lt_two_pow (n := 16) hc (by omega))
    (Nat.xor_lt_two_pow (n := 16) hc (by omega)) h
  exact hne (Nat.xor_right_injective h1)

theorem crcFold_lt (l : List Nat) {c : Nat} (hc : c < 65536)
    (hl : ∀ x ∈ l, x < 256) : l.foldl crcUpdateByte c < 65536 := by
  induction l generalizing c with
  | nil => exact hc
  | cons x rest ih =>
    exact ih (crcUpdateByte_lt hc (hl x (by simp))) (fun y hy => hl y (by simp [hy]))

theorem crcFold_inj (l : List Nat) {c c' : Nat} (hc : c < 65536) (hc' : c' < 65536)
    (hl : ∀ x ∈ l, x < 256)
    (h : l.foldl crcUpdateByte c = l.foldl crcUpdateByte c') : c = c' := by
  induction l generalizing c c' with
  | nil => exact h
  | cons x rest ih =>
    have hx : x < 256 := hl x (by simp)
    exact crcUpdateByte_inj hc hc' hx
      (ih (crcUpdateByte_lt hc hx) (crcUpdateByte_lt hc' hx)
        (fun y hy => hl y (by simp [hy])) h)

theorem calculateCRC_lt (l : List Nat) (hl : ∀ x ∈ l, x < 256) :
    calculateCRC l < 65536 :=
  crcFold_lt l (by norm_num) hl

theorem calculateCRC_set_ne (x : List Nat) (i c' : Nat) (hi : i < x.length)
    (hx : ∀ b ∈ x, b < 256) (hc' : c' < 256) (hne : c' ≠ x.getD i 0) :
    calculateCRC (x.set i c') ≠ calculateCRC x := by
  have hgetD : x.getD i 0 = x[i] := List.getD_eq_getElem x 0 hi
  have hxi : x.getD i 0 < 256 := by
    rw [hgetD]
    exact hx _ (List.getElem_mem hi)
  have hset : x.set i c' = x.take i ++ c' :: x.drop (i + 1) := by
    rw [List.set_eq_take_append_cons_drop, if_pos hi]
  have hxdec : x = x.take i ++ x.getD i 0 :: x.drop (i + 1) := by
    conv_lhs => rw [← List.take_append_drop i x]
    rw [List.drop_eq_getElem_cons hi, hgetD]
  have hpre : ∀ y ∈ x.take i, y < 256 := fun y hy => hx y (List.mem_of_mem_take hy)
  have hsuf : ∀ y ∈ x.drop (i + 1), y < 256 := fun y hy => hx y (List.mem_of_mem_drop hy)
  have hc0 : (x.take i).foldl crcUpdateByte 0 < 65536 := crcFold_lt _ (by norm_num) hpre
  intro h
  rw [hset] at h
  conv_rhs at h => rw [hxdec]
  simp only [calculateCRC, List.foldl_append, List.foldl_cons] at h
  have h2 := crcFold_inj (x.drop (i + 1))
    (crcUpdateByte_lt hc0 hc') (crcUpdateByte_lt hc0 hxi) hsuf h
  exact crcUpdateByte_ne hc0 hc' hxi hne h2

theorem or64_eq_add : ∀ v : Nat, v < 64 → 64 ||| v = 64 + v := by decide

theorem crcToString_inj {a b : Nat} (ha : a < 65536) (hb : b < 65536)
    (h : crcToString a = crcToString b) : a = b := by
  have hdiv12 : ∀ x : Nat, x >>> 12 = x / 4096 := fun x => by
    rw [Nat.shiftRight_eq_div_pow]
  have hdiv6 : ∀ x : Nat, x >>> 6 = x / 64 := fun x => by
    rw [Nat.shiftRight_eq_div_pow]
  have hand : ∀ x : Nat, x &&& 0x3F = x % 64 := fun x => by
    have := Nat.and_pow_two_sub_one_eq_mod x 6
    norm_num at this
    exact this
  have ha12 : a >>> 12 < 64 := by rw [hdiv12]; omega
  have hb12 : b >>> 12 < 64 := by rw [hdiv12]; omega
  have ha6 : (a >>> 6) &&& 0x3F < 64 := by rw [hand]; omega
  have hb6 : (b >>> 6) &&& 0x3F < 64 := by rw [hand]; omega
  have ha0 : a &&& 0x3F < 64 := by rw [hand]; omega
  have hb0 : b &&& 0x3F < 64 := by rw [hand]; omega
  simp only [crcToString, List.cons.injEq, and_true] at h
  obtain ⟨h1, h2, h3⟩ := h
  rw [or64_eq_add _ ha12, or64_eq_add _ hb12] at h1
  rw [or64_eq_add _ ha6, or64_eq_add _ hb6] at h2
  rw [or64_eq_add _ ha0, or64_eq_add _ hb0] at h3
  rw [hdiv12, hdiv12] at h1
  rw [hdiv6, hdiv6, hand, hand] at h2
  rw [hand, hand] at h3
  omega

theorem crcToString_length (c : Nat) : (crcToString c).length = 3 := by
  simp [crcToString]

theorem msgWithCRC_parts (x : List Nat) :
    msgWithCRC x = x ++ (crcToString (calculateCRC x) ++ [13, 10]) := by
  simp [msgWithCRC]

theorem verifyCRC_roundTrip (x : List Nat) : verifyCRC (msgWithCRC x) = true := by
  rw [msgWithCRC_parts]
  simp only [verifyCRC]
  have hlen : (x ++ (crcToString (calculateCRC x) ++ [13, 10])).length - 5 = x.length := by
    simp [crcToString_length]
  rw [hlen, List.take_left' rfl, List.drop_left' rfl,
    List.take_left' (crcToString_length _)]
  simp

theorem verifyCRC_flip_payload (x : List Nat) (i c' : Nat) (hx : ∀ b ∈ x, b < 256)
    (hi : i < x.length) (hc' : c' < 256) (hne : c' ≠ x.getD i 0) :
    verifyCRC ((msgWithCRC x).set i c') = false := by
  rw [msgWithCRC_parts]
  rw [List.set_append_left _ _ (by omega)]
  simp only [verifyCRC]
  have hlen : ((x.set i c') ++ (crcToString (calculateCRC x) ++ [13, 10])).length - 5 =
      (x.set i c').length := by
    simp [crcToString_length]
  rw [hlen, List.take_left' rfl, List.drop_left' rfl,
    List.take_left' (crcToString_length _)]
  rw [beq_eq_false_iff_ne]
  intro hEq
  have hybytes : ∀ b ∈ x.set i c', b < 256 := by
    intro b hb
    rcases List.mem_or_eq_of_mem_set hb with h1 | h1
    · exact hx b h1
    · omega
  have := crcToString_inj (calculateCRC_lt _ hx) (calculateCRC_lt _ hybytes) hEq
  exact calculateCRC_set_ne x i c' hi hx hc' hne this.symm

theorem verifyCRC_flip_crcField (x : List Nat) (i c' : Nat)
    (hilo : x.length ≤ i) (hihi : i < x.length + 3)
    (hne : c' ≠ (crcToString (calculateCRC x)).getD (i - x.length) 0) :
    verifyCRC ((msgWithCRC x).set i c') = false := by
  rw [msgWithCRC_parts]
  rw [List.set_append_right _ _ hilo]
  rw [List.set_append_left _ _ (by simp [crcToString_length]; omega)]
  simp only [verifyCRC]
  have hlen3 : ((crcToString (calculateCRC x)).set (i - x.length) c').length = 3 := by
    simp [crcToString_length]
  have hlen : (x ++ ((crcToString (calculateCRC x)).set (i - x.length) c' ++ [13, 10])).length
      - 5 = x.length := by
    simp [hlen3]
  rw [hlen, List.take_left' rfl, List.drop_left' rfl, List.take_left' hlen3]
  rw [beq_eq_false_iff_ne]
  intro hEq
  have hj : i - x.length < 3 := by omega
  have hj' : i - x.length < (crcToString (calculateCRC x)).length := by
    rw [crcToString_length]; exact hj
  have hq := congrArg (fun l => l[i - x.length]?) hEq
  simp only [List.getElem?_set_self hj', List.getElem?_eq_getElem hj'] at hq
  rw [List.getD_eq_getElem _ _ hj'] at hne
  exact hne (Option.some.inj hq)

/-- Claim C3, amended: for every ASCII payload free of CR and LF, the
message payload + `crcToString (calculateCRC payload)` + CR LF passes
`verifyCRC`; and changing any single character of the payload or of the
3-character CRC field (any position before the CR LF terminator) to a
different byte makes `verifyCRC` return false.  (Changing the terminator
itself is not detected — see the counterexample.) -/
theorem crc_roundTrip_flip_detection (x : List Nat)
    (hx : ∀ b ∈ x, b < 128 ∧ b ≠ 13 ∧ b ≠ 10) :
    verifyCRC (msgWithCRC x) = true ∧
      ∀ i c', i < x.length + 3 → c' < 256 → c' ≠ (msgWithCRC x).getD i 0 →
        verifyCRC ((msgWithCRC x).set i c') = false := by
  have hx' : ∀ b ∈ x, b < 256 := fun b hb => by have := (hx b hb).1; omega
  refine ⟨verifyCRC_roundTrip x, fun i c' hi hc' hne => ?_⟩
  by_cases hcase : i < x.length
  · apply verifyCRC_flip_payload x i c' hx' hcase hc'
    rw [msgWithCRC_parts] at hne
    rwa [List.getD_append _ _ _ _ hcase] at hne
  · have hilo : x.length ≤ i := by omega
    apply verifyCRC_flip_crcField x i c' hilo (by omega)
    rw [msgWithCRC_parts] at hne
    rw [List.getD_append_right _ _ _ _ hilo] at hne
    rwa [List.getD_append _ _ _ _ (by rw [crcToString_length]; omega)] at hne

/-- Claim C3, counterexample: flipping the CR of the terminator of the
message built from payload "0" produces a different message on which
`verifyCRC` still returns true, because verification never reads the two
terminator positions. -/
theorem crc_flip_terminator_passes :
    (msgWithCRC [48]).set 4 65 ≠ msgWithCRC [48] ∧
      verifyCRC ((msgWithCRC [48]).set 4 65) = true := by decide

/-- Witness for claim C3 at payload "01" and a flip of its first byte. -/
theorem crc_roundTrip_flip_detection_witness :
    verifyCRC (msgWithCRC [48, 49]) = true ∧
      verifyCRC ((msgWithCRC [48, 49]).set 0 50) = false :=
  ⟨(crc_roundTrip_flip_detection [48, 49] (by decide)).1,
   (crc_roundTrip_flip_detection [48, 49] (by decide)).2 0 50 (by decide) (by decide)
     (by decide)⟩

/-- Claim C4: `setActive()` on the already-active instance changes nothing
and returns false; on any other instance it makes that instance the unique
active one, puts it in the Holding state, and returns true, after which its
`isActive()` is true and every other instance's is false; and at most one
instance is active at any time. -/
theorem setActive_arbitration (reg : SDI12Registry) (i : Nat) :
    (isActive reg i = true → setActive reg i = (reg, false)) ∧
    (isActive reg i = false →
      (setActive reg i).2 = true ∧
      isActive (setActive reg i).1 i = true ∧
      (setActive reg i).1.lineState i = SDI12_STATES.SDI12_HOLDING ∧
      (∀ j, j ≠ i → isActive (setActive reg i).1 j = false)) ∧
    (∀ j, isActive reg i = true → isActive reg j = true → j = i) := by
  refine ⟨fun hact => ?_, fun hinact => ?_, fun j hi hj => ?_⟩
  · have h1 : reg._activeObject = some i := by
      have := hact
      simp only [isActive, decide_eq_true_eq] at this
      exact this
    simp [setActive, h1]
  · have h1 : ¬ reg._activeObject = some i := by
      intro hcontra
      simp [isActive, hcontra] at hinact
    simp [setActive, h1, isActive]
    intro j hj
    omega
  · simp only [isActive, decide_eq_true_eq] at hi hj
    rw [hj] at hi
    exact Option.some.inj hi

/-- Witness for claim C4: promoting instance 1 while instance 0 is active. -/
theorem setActive_arbitration_witness :
    (setActive ⟨some 0, fun _ => SDI12_STATES.SDI12_DISABLED⟩ 1).2 = true ∧
      isActive (setActive ⟨some 0, fun _ => SDI12_STATES.SDI12_DISABLED⟩ 1).1 1 = true ∧
      (setActive ⟨some 0, fun _ => SDI12_STATES.SDI12_DISABLED⟩ 1).1.lineState 1 =
        SDI12_STATES.SDI12_HOLDING ∧
      isActive (setActive ⟨some 0, fun _ => SDI12_STATES.SDI12_DISABLED⟩ 1).1 0 = false := by
  have h := (setActive_arbitration ⟨some 0, fun _ => SDI12_STATES.SDI12_DISABLED⟩ 1).2.1
    (by rfl)
  exact ⟨h.1, h.2.1, h.2.2.1, h.2.2.2 0 (by decide)⟩

/-- Claim C5: the wake sequence sets the Transmitting state, holds the line
HIGH for the break (`SDI12_LINE_BREAK_MICROS` = 12100 µs, so at least
12.1 ms), then LOW for the marking (`SDI12_LINE_MARK_MICROS` = 8400 µs, so
at least 8.4 ms), then waits the caller's extra wake delay; and a continuous
HIGH duration of exactly 12099 µs falls short of the break minimum while
12101 µs meets it. -/
theorem wakeSensors_timing (extraWakeTime : Nat) :
    wakeSensors extraWakeTime =
      [TxEvent.setStateTo SDI12_STATES.SDI12_TRANSMITTING,
       TxEvent.holdLine true SDI12_LINE_BREAK_MICROS,
       TxEvent.holdLine false SDI12_LINE_MARK_MICROS,
       TxEvent.waitMillis extraWakeTime] ∧
    12100 ≤ SDI12_LINE_BREAK_MICROS ∧ 8400 ≤ SDI12_LINE_MARK_MICROS ∧
    ¬ SDI12_LINE_BREAK_MICROS ≤ 12099 ∧ SDI12_LINE_BREAK_MICROS ≤ 12101 :=
  ⟨rfl, by decide, by decide, by decide, by decide⟩

set_option maxRecDepth 10000 in
/-- Claim C6: with parity checking enabled, a frame whose parity bit is
transmitted at the wrong level makes the decoder set the sticky
`_parityFailure` flag, yet the assembled byte is still delivered to the
buffer — for every byte value 0–127. -/
theorem parity_mismatch_sticky_not_discarded : ∀ b < 128,
    (decodeRun initDecodeState
      (lineEdges 0 false (writeCharBadParity b ++ [true])))._parityFailure = true ∧
    (decodeRun initDecodeState
      (lineEdges 0 false (writeCharBadParity b ++ [true]))).delivered = [b] := by
  decide

/-- Witness for claim C6 at byte 5. -/
theorem parity_mismatch_sticky_not_discarded_witness :
    (decodeRun initDecodeState
      (lineEdges 0 false (writeCharBadParity 5 ++ [true])))._parityFailure = true ∧
    (decodeRun initDecodeState
      (lineEdges 0 false (writeCharBadParity 5 ++ [true]))).delivered = [5] :=
  parity_mismatch_sticky_not_discarded 5 (by decide)

/-- Claim C7: `begin()` establishes the 150 ms stream timeout and the -9999
timeout return value; with the receive buffer empty for the whole timeout,
`parseInt` and `parseFloat` return the distinguished sentinel (-9999 by
default, or the value configured via `setTimeoutValue`) rather than 0 or
any normal reading. -/
theorem parse_timeout_sentinel (d : SDI12Device) (la la2 : LookaheadMode)
    (ig ig2 : Nat) (v : Int) :
    (beginSDI12 d).timeoutMillis = 150 ∧
    (beginSDI12 d).TIMEOUT = -9999 ∧
    parseInt (beginSDI12 d) la ig [] = -9999 ∧
    parseFloat (beginSDI12 d) la2 ig2 [] = -9999 ∧
    parseInt (setTimeoutValue (beginSDI12 d) v) la ig [] = v ∧
    parseFloat (setTimeoutValue (beginSDI12 d) v) la2 ig2 [] = v := by
  refine ⟨rfl, rfl, rfl, ?_, rfl, ?_⟩
  · simp [parseFloat, peekNextDigit, beginSDI12]
  · simp [parseFloat, peekNextDigit, setTimeoutValue]

/-- Claim C9: the results of `parseInt` and `parseFloat` are independent of
the `LookaheadMode` and ignore-character arguments supplied — any two calls
on the same state differing only in those arguments return the same value,
because the implementation always behaves as SKIP_NONE with no ignore
character. -/
theorem parse_ignores_lookahead_args (d : SDI12Device) (la1 la2 : LookaheadMode)
    (ig1 ig2 : Nat) (buf : List Nat) :
    parseInt d la1 ig1 buf = parseInt d la2 ig2 buf ∧
      parseFloat d la1 ig1 buf = parseFloat d la2 ig2 buf :=
  ⟨rfl, rfl⟩

/-- Claim C10: an instance from the no-argument constructor has no data pin
bound — `getDataPin()` returns -1 — until `setDataPin(pin)` or `begin(pin)`
is called, after which it returns that pin; an instance from the
pin-argument constructor has `getDataPin()` equal to that pin from
construction. -/
theorem dataPin_constructor_behaviour (p : Int) :
    getDataPin SDI12_new = -1 ∧
    getDataPin (SDI12_newWithPin p) = p ∧
    getDataPin (setDataPin SDI12_new p) = p ∧
    getDataPin (beginSDI12WithPin SDI12_new p) = p :=
  ⟨rfl, rfl, rfl, rfl⟩
